import Mathlib

/-!
# Microsoft translator client: language catalog, language provider, HTTP client

A shallow embedding of `microsoft/languages.go` and `microsoft/http.go`.

Go values are embedded as follows.

* A Go slice is a `Slice`: either the nil slice or a non-nil slice holding a list of
  elements. The catalog tests its cache with `== nil`, so the distinction is kept.
* A Go `error` value is an `Option Err`; `none` is the nil error.
* A Go multi-value return `(v, err)` is a pair.
* A method with a pointer receiver returns the updated receiver.
* Collaborators that are Go interfaces (`LanguageProvider`, `HTTPClient`,
  `Authenticator`, the HTTP transport) are records of state-passing functions over an
  arbitrary world type `ω`; every call made to a collaborator is also written to a log
  that the embedded function returns, so that "is called", "is not called" and
  "is called before" are statements about that log.
* A run-time panic (index out of range, nil dereference) is an explicit outcome, and the
  receiver keeps whatever was written to it before the panic.
-/

namespace Microsoft

/-! ## Go runtime values -/

/-- Go slice: the nil slice, or a non-nil slice with its elements. -/
inductive Slice (α : Type) where
  | nil : Slice α
  | mk (elems : List α) : Slice α
  deriving DecidableEq, Repr

namespace Slice

/-- Elements of a slice; the nil slice has none. -/
def toList {α : Type} : Slice α → List α
  | nil => []
  | mk xs => xs

/-- Go `len(s)`. -/
def len {α : Type} (s : Slice α) : Nat := s.toList.length

/-- Go `s == nil`. -/
def isNil {α : Type} : Slice α → Bool
  | nil => true
  | mk _ => false

/-- Go `append(s, x)`: the result is never nil. -/
def append {α : Type} (s : Slice α) (x : α) : Slice α := mk (s.toList ++ [x])

/-- Go `s[i]`, with `none` standing for the index-out-of-range fault. -/
def index? {α : Type} (s : Slice α) (i : Nat) : Option α := s.toList[i]?

end Slice

/-- Go error value. `traced` is what `tracerr.Wrap` builds around a non-nil error. -/
inductive Err where
  | msg (text : String) : Err
  | traced (cause : Err) : Err
  deriving DecidableEq, Repr

/-- The call `tracerr.Wrap(err)` on a non-nil error. -/
def tracerrWrap (err : Err) : Err := Err.traced err

/-- Run-time faults of the Go runtime that the embedded code can raise. -/
inductive Panic where
  | indexOutOfRange (index length : Nat) : Panic
  | nilDereference : Panic
  deriving DecidableEq, Repr

/-- How a call ends: it returns a value, or it panics. -/
inductive Outcome (α : Type) where
  | returned (value : α) : Outcome α
  | panicked (fault : Panic) : Outcome α
  deriving DecidableEq, Repr

/-! ## Language catalog (`languages.go`) -/

/-- The record `translator.Language`. -/
structure Language where
  Code : String
  Name : String
  deriving DecidableEq, Repr

/-- The interface `LanguageProvider`, over a world `ω` that its methods may read and change. -/
structure LanguageProvider (ω : Type) where
  Codes : ω → (Slice String × Option Err) × ω
  Names : Slice String → ω → (Slice String × Option Err) × ω

/-- One call to the provider, as written to the call log. -/
inductive ProviderCall where
  | Codes : ProviderCall
  | Names (codes : Slice String) : ProviderCall
  deriving DecidableEq, Repr

/-- The struct `languageCatalog`. -/
structure languageCatalog (ω : Type) where
  provider : LanguageProvider ω
  languages : Slice Language

/-- The constructor `newLanguageCatalog`: the `languages` field keeps its zero value, nil. -/
def newLanguageCatalog {ω : Type} (provider : LanguageProvider ω) : languageCatalog ω :=
  { provider := provider, languages := Slice.nil }

/-- The loop `for i := range codes { c.languages = append(c.languages, Language{codes[i], names[i]}) }`
from index `i`, with `remaining` iterations to go. The operands `codes[i]` and `names[i]` are
evaluated before `append` and before the assignment, so an out-of-range index leaves
`c.languages` as the previous iterations left it. -/
def zipLoop (codes names : Slice String) :
    (remaining i : Nat) → Slice Language → Option Panic × Slice Language
  | 0, _, languages => (none, languages)
  | remaining + 1, i, languages =>
    match codes.index? i with
    | none => (some (Panic.indexOutOfRange i codes.len), languages)
    | some code =>
      match names.index? i with
      | none => (some (Panic.indexOutOfRange i names.len), languages)
      | some name =>
        zipLoop codes names remaining (i + 1) (languages.append { Code := code, Name := name })

/-- What a call to `Languages` leaves behind: how it ended, the receiver, the world, and the
provider calls it made, in order. -/
structure LanguagesResult (ω : Type) where
  outcome : Outcome (Slice Language × Option Err)
  catalog : languageCatalog ω
  world : ω
  calls : List ProviderCall

/-- The method `(*languageCatalog).Languages`. -/
def Languages {ω : Type} (c : languageCatalog ω) (w : ω) : LanguagesResult ω :=
  if c.languages.isNil then
    match c.provider.Codes w with
    | ((_, some err), w1) =>
      { outcome := Outcome.returned (Slice.nil, some (tracerrWrap err)),
        catalog := c, world := w1, calls := [ProviderCall.Codes] }
    | ((codes, none), w1) =>
      match c.provider.Names codes w1 with
      | ((_, some err), w2) =>
        { outcome := Outcome.returned (Slice.nil, some (tracerrWrap err)),
          catalog := c, world := w2,
          calls := [ProviderCall.Codes, ProviderCall.Names codes] }
      | ((names, none), w2) =>
        match zipLoop codes names codes.len 0 c.languages with
        | (some fault, languages) =>
          { outcome := Outcome.panicked fault,
            catalog := { c with languages := languages }, world := w2,
            calls := [ProviderCall.Codes, ProviderCall.Names codes] }
        | (none, languages) =>
          { outcome := Outcome.returned (languages, none),
            catalog := { c with languages := languages }, world := w2,
            calls := [ProviderCall.Codes, ProviderCall.Names codes] }
  else
    { outcome := Outcome.returned (c.languages, none), catalog := c, world := w, calls := [] }

/-! ## HTTP client (`http.go`) -/

/-- Go `[]byte`. -/
abbrev Bytes := List UInt8

/-- The type `http.Header`: for each key, the values added under it, in order. -/
abbrev Header := List (String × List String)

/-- The method `Header.Add(key, value)`: the value is appended to the values of the key.
The only key the client uses, "Content-Type", is already in canonical form. -/
def Header.Add : Header → String → String → Header
  | [], key, value => [(key, [value])]
  | (k, vs) :: rest, key, value =>
    if k = key then (k, vs ++ [value]) :: rest else (k, vs) :: Header.Add rest key value

/-- The method `Header.Values(key)`: all values under the key. -/
def Header.Values : Header → String → List String
  | [], _ => []
  | (k, vs) :: rest, key => if k = key then vs else Header.Values rest key

/-- The type `http.Request`: the fields the client sets. A nil `io.Reader` body is `none`,
any other reader is the bytes it yields. -/
structure Request where
  Method : String
  URL : String
  Body : Option Bytes
  Header : Header
  deriving DecidableEq, Repr

/-- The type `http.Response`: `Body` is what `ioutil.ReadAll(response.Body)` yields. -/
structure Response where
  Body : Bytes × Option Err
  deriving DecidableEq, Repr

/-- The parts of the standard library that `http.NewRequest` relies on and that are left
open: `validMethod` is the check of the method token, and `parseURL` is `url.Parse` followed
by the clean-up of the host, giving the URL the request carries. -/
structure NetHttp where
  validMethod : String → Bool
  parseURL : String → Except Err String

/-- The function `http.NewRequest`: an empty method stands for GET; a method that is not a
valid token is refused; the URL is parsed, and a URL that does not parse is refused; the
request is built with that method, the parsed URL, the body, and an empty header. -/
def httpNewRequest (net : NetHttp) (method uri : String) (body : Option Bytes) :
    Except Err Request :=
  let method := if method = "" then "GET" else method
  if net.validMethod method then
    match net.parseURL uri with
    | Except.error err => Except.error err
    | Except.ok url => Except.ok { Method := method, URL := url, Body := body, Header := [] }
  else
    Except.error (Err.msg ("net/http: invalid method " ++ method.quote))

/-- The struct `httpClient`. `authenticator` is `Authenticator.Authenticate`, which may change
the request it is handed; `client` is `(*http.Client).Do`, the transport send. -/
structure httpClient (ω : Type) where
  client : Request → ω → (Option Response × Option Err) × ω
  authenticator : Request → ω → (Request × Option Err) × ω

/-- One call made by `SendRequest` to a collaborator, with the request it was handed. -/
inductive HttpEvent where
  | Authenticate (request : Request) : HttpEvent
  | Do (request : Request) : HttpEvent
  deriving DecidableEq, Repr

/-- What a call to `SendRequest` leaves behind: the returned pair, the world, and the calls
made to the authenticator and to the transport, in order. -/
structure SendResult (ω : Type) where
  ret : Option Response × Option Err
  world : ω
  events : List HttpEvent

/-- The method `(*httpClient).SendRequest`. -/
def SendRequest {ω : Type} (h : httpClient ω) (net : NetHttp) (method uri : String)
    (body : Option Bytes) (contentType : String) (w : ω) : SendResult ω :=
  match httpNewRequest net method uri body with
  | Except.error err => { ret := (none, some (tracerrWrap err)), world := w, events := [] }
  | Except.ok request0 =>
    let request := { request0 with Header := request0.Header.Add "Content-Type" contentType }
    match h.authenticator request w with
    | ((_, some err), w1) =>
      { ret := (none, some (tracerrWrap err)), world := w1,
        events := [HttpEvent.Authenticate request] }
    | ((authenticated, none), w1) =>
      match h.client authenticated w1 with
      | ((_, some err), w2) =>
        { ret := (none, some (tracerrWrap err)), world := w2,
          events := [HttpEvent.Authenticate request, HttpEvent.Do authenticated] }
      | ((response, none), w2) =>
        { ret := (response, none), world := w2,
          events := [HttpEvent.Authenticate request, HttpEvent.Do authenticated] }

/-! ## Language provider (`languages.go`) -/

/-- The interface `Router`, as far as the provider uses it. Its declaration is not in the
given sources, so the two URLs are left open. -/
structure Router where
  LanguageNamesURL : String
  LanguageCodesURL : String

/-- The struct `xmlArrayOfStrings` and what the provider does with it. Their declarations are
not in the given sources, so the type `X` and these operations are left open: `zero` is
`xmlArrayOfStrings{}`, `Strings` is the field read by the provider, `Marshal` is `xml.Marshal`
at this type, and `Unmarshal body result` is `xml.Unmarshal(body, &result)`, which writes into
`result`. -/
structure XmlCodec (X : Type) where
  zero : X
  Strings : X → Slice String
  newXMLArrayOfStrings : Slice String → X
  Marshal : X → Bytes × Option Err
  Unmarshal : Bytes → X → X × Option Err

/-- The arguments of one call to `HTTPClient.SendRequest`. -/
structure SentRequest where
  method : String
  uri : String
  body : Option Bytes
  contentType : String
  deriving DecidableEq, Repr

/-- The struct `languageProvider`. `httpClient` is the interface method
`HTTPClient.SendRequest`. -/
structure languageProvider (ω : Type) where
  router : Router
  httpClient : String → String → Option Bytes → String → ω →
    (Option Response × Option Err) × ω

/-- What a call to `Names` or `Codes` leaves behind: how it ended, the world, the calls made
to `SendRequest` in order, and whether the deferred `response.Body.Close()` was registered
and so ran on the way out. -/
structure FetchResult (ω : Type) where
  outcome : Outcome (Slice String × Option Err)
  world : ω
  requests : List SentRequest
  bodyClosed : Bool

/-- The method `(*languageProvider).Names`. The error returned by `xml.Marshal` is assigned
to the blank identifier. A nil response returned with a nil error faults on `response.Body`. -/
def Names {ω X : Type} (p : languageProvider ω) (xml : XmlCodec X) (codes : Slice String)
    (w : ω) : FetchResult ω :=
  let payload := (xml.Marshal (xml.newXMLArrayOfStrings codes)).1
  let uri := p.router.LanguageNamesURL ++ "?locale=en"
  let request : SentRequest :=
    { method := "POST", uri := uri, body := some payload, contentType := "text/xml" }
  match p.httpClient "POST" uri (some payload) "text/xml" w with
  | ((_, some err), w1) =>
    { outcome := Outcome.returned (Slice.nil, some (tracerrWrap err)),
      world := w1, requests := [request], bodyClosed := false }
  | ((none, none), w1) =>
    { outcome := Outcome.panicked Panic.nilDereference,
      world := w1, requests := [request], bodyClosed := false }
  | ((some response, none), w1) =>
    match response.Body with
    | (_, some err) =>
      { outcome := Outcome.returned (Slice.nil, some (tracerrWrap err)),
        world := w1, requests := [request], bodyClosed := true }
    | (body, none) =>
      match xml.Unmarshal body xml.zero with
      | (_, some err) =>
        { outcome := Outcome.returned (Slice.nil, some (tracerrWrap err)),
          world := w1, requests := [request], bodyClosed := true }
      | (result, none) =>
        { outcome := Outcome.returned (xml.Strings result, none),
          world := w1, requests := [request], bodyClosed := true }

/-- The method `(*languageProvider).Codes`. A nil response returned with a nil error faults
on `response.Body`. -/
def Codes {ω X : Type} (p : languageProvider ω) (xml : XmlCodec X) (w : ω) : FetchResult ω :=
  let request : SentRequest :=
    { method := "GET", uri := p.router.LanguageCodesURL, body := none,
      contentType := "text/plain" }
  match p.httpClient "GET" p.router.LanguageCodesURL none "text/plain" w with
  | ((_, some err), w1) =>
    { outcome := Outcome.returned (Slice.nil, some (tracerrWrap err)),
      world := w1, requests := [request], bodyClosed := false }
  | ((none, none), w1) =>
    { outcome := Outcome.panicked Panic.nilDereference,
      world := w1, requests := [request], bodyClosed := false }
  | ((some response, none), w1) =>
    match response.Body with
    | (_, some err) =>
      { outcome := Outcome.returned (Slice.nil, some (tracerrWrap err)),
        world := w1, requests := [request], bodyClosed := true }
    | (body, none) =>
      match xml.Unmarshal body xml.zero with
      | (_, some err) =>
        { outcome := Outcome.returned (Slice.nil, some (tracerrWrap err)),
          world := w1, requests := [request], bodyClosed := true }
      | (result, none) =>
        { outcome := Outcome.returned (xml.Strings result, none),
          world := w1, requests := [request], bodyClosed := true }

/-! ## Auxiliary definitions for the statements -/

/-- Appending a run of elements one by one, as the loop does. -/
def Slice.extend {α : Type} (s : Slice α) : List α → Slice α
  | [] => s
  | x :: xs => (s.append x).extend xs

/-- The catalog states reachable from `newLanguageCatalog provider` by calls to `Languages`
that return normally, each made in an arbitrary world. -/
inductive Reachable {ω : Type} (provider : LanguageProvider ω) : languageCatalog ω → Prop where
  | init : Reachable provider (newLanguageCatalog provider)
  | call (c : languageCatalog ω) (w : ω) (value : Slice Language × Option Err) :
      Reachable provider c → (Languages c w).outcome = Outcome.returned value →
      Reachable provider (Languages c w).catalog

/-- Successive calls to `Languages`, one per world of the list; the results, in order. -/
def callEach {ω : Type} : languageCatalog ω → List ω → List (LanguagesResult ω)
  | _, [] => []
  | c, w :: ws => Languages c w :: callEach (Languages c w).catalog ws

/-! ## Test doubles

Stand-ins for the collaborators, used to evaluate the code at concrete inputs. Their world is
the number of calls they have received. -/

/-- A provider stub that answers every `Codes` call and every `Names` call with fixed pairs. -/
def stubProvider (codes names : Slice String × Option Err) : LanguageProvider Nat :=
  { Codes := fun w => (codes, w + 1), Names := fun _ w => (names, w + 1) }

/-- An HTTP client stub: the authenticator adds a credential header and answers with
`authErr`; the transport answers with `sent`. -/
def stubHttpClient (authErr : Option Err) (sent : Option Response × Option Err) :
    httpClient Nat :=
  { authenticator := fun request w =>
      (({ request with Header := request.Header.Add "Authorization" "Bearer t" }, authErr), w + 1),
    client := fun _ w => (sent, w + 1) }

/-- A standard-library stub that accepts every method and parses every URL to itself. -/
def stubNetHttp : NetHttp :=
  { validMethod := fun _ => true, parseURL := fun uri => Except.ok uri }

/-- A codec stub over `Slice String` with fixed answers for `Marshal` and `Unmarshal`. -/
def stubCodec (marshalled : Bytes × Option Err) (unmarshalled : Slice String × Option Err) :
    XmlCodec (Slice String) :=
  { zero := Slice.nil, Strings := fun x => x, newXMLArrayOfStrings := fun codes => codes,
    Marshal := fun _ => marshalled, Unmarshal := fun _ _ => unmarshalled }

/-- A language provider whose `SendRequest` answers every call with a fixed pair. -/
def stubLanguageProvider (sent : Option Response × Option Err) : languageProvider Nat :=
  { router := { LanguageNamesURL := "https://api.test/names",
                LanguageCodesURL := "https://api.test/codes" },
    httpClient := fun _ _ _ _ w => (sent, w + 1) }

/-! ## Facts about slices and the zip loop -/

theorem Slice.toList_nil {α : Type} : (Slice.nil : Slice α).toList = [] := rfl

theorem Slice.toList_mk {α : Type} (xs : List α) : (Slice.mk xs).toList = xs := rfl

theorem Slice.toList_append {α : Type} (s : Slice α) (x : α) :
    (s.append x).toList = s.toList ++ [x] := rfl

theorem Slice.toList_extend {α : Type} (xs : List α) (s : Slice α) :
    (s.extend xs).toList = s.toList ++ xs := by
  induction xs generalizing s with
  | nil => simp [Slice.extend]
  | cons x xs ih => simp [Slice.extend, ih, Slice.toList_append]

theorem Slice.extend_cons_eq_mk {α : Type} (xs : List α) (s : Slice α) (x : α) :
    s.extend (x :: xs) = Slice.mk (s.toList ++ x :: xs) := by
  induction xs generalizing s x with
  | nil => simp [Slice.extend, Slice.append]
  | cons y ys ih =>
    have h := ih (s.append x) y
    simp only [Slice.extend] at h ⊢
    rw [h, Slice.toList_append]
    simp

theorem Slice.isNil_eq_true {α : Type} (s : Slice α) : s.isNil = true ↔ s = Slice.nil := by
  cases s <;> simp [Slice.isNil]

theorem Slice.isNil_eq_false {α : Type} (s : Slice α) : s.isNil = false ↔ s ≠ Slice.nil := by
  cases s <;> simp [Slice.isNil]

/-- The zip loop, in closed form: it appends the records of the positions where both indexes
are in range, and faults at the first position past the end of `names`. -/
theorem zipLoop_eq (codes names : Slice String) (remaining : Nat) :
    ∀ (i : Nat) (languages : Slice Language), i + remaining ≤ codes.len →
      zipLoop codes names remaining i languages =
        (if 0 < remaining ∧ names.len < i + remaining
          then some (Panic.indexOutOfRange (max i names.len) names.len) else none,
         languages.extend
           (List.zipWith Language.mk ((codes.toList.drop i).take remaining)
             (names.toList.drop i))) := by
  induction remaining with
  | zero =>
    intro i languages _
    simp [zipLoop, Slice.extend]
  | succ r ih =>
    intro i languages hi
    have hic : i < codes.toList.length := by
      have : i + (r + 1) ≤ codes.toList.length := hi
      omega
    have hc : codes.index? i = some (codes.toList[i]) := by
      simp [Slice.index?, List.getElem?_eq_getElem hic]
    have hdc : codes.toList.drop i = codes.toList[i] :: codes.toList.drop (i + 1) :=
      List.drop_eq_getElem_cons hic
    rw [zipLoop, hc]
    simp only []
    by_cases hin : i < names.toList.length
    · have hn : names.index? i = some (names.toList[i]) := by
        simp [Slice.index?, List.getElem?_eq_getElem hin]
      have hdn : names.toList.drop i = names.toList[i] :: names.toList.drop (i + 1) :=
        List.drop_eq_getElem_cons hin
      rw [hn]
      simp only []
      rw [ih (i + 1) _ (by omega), hdc, hdn]
      simp only [List.take_succ_cons, List.zipWith_cons_cons, Slice.extend]
      congr 1
      have hlen : names.len = names.toList.length := rfl
      by_cases hf : names.len < i + 1 + r
      · have h1 : max (i + 1) names.len = names.len := by omega
        have h2 : max i names.len = names.len := by omega
        have h3 : names.len < i + (r + 1) := by omega
        by_cases hr : 0 < r
        · simp [hf, h1, h2, h3, hr]
        · omega
      · have h3 : ¬ names.len < i + (r + 1) := by omega
        simp [hf, h3]
    · have hn : names.index? i = none := by
        simp only [Slice.index?]
        exact List.getElem?_eq_none (by omega)
      have hdn : names.toList.drop i = [] := List.drop_eq_nil_of_le (by omega)
      have hlen : names.len = names.toList.length := rfl
      rw [hn, hdn]
      have h3 : names.len < i + (r + 1) := by omega
      have h2 : max i names.len = i := by omega
      simp [h3, h2, Slice.extend]

/-- The whole loop, started at index 0 as `Languages` starts it. -/
theorem zipLoop_start (codes names : Slice String) (languages : Slice Language) :
    zipLoop codes names codes.len 0 languages =
      (if names.len < codes.len
        then some (Panic.indexOutOfRange names.len names.len) else none,
       languages.extend (List.zipWith Language.mk codes.toList names.toList)) := by
  rw [zipLoop_eq codes names codes.len 0 languages (by omega)]
  have hlen : codes.len = codes.toList.length := rfl
  congr 1
  · by_cases h : names.len < codes.len
    · have h0 : 0 < codes.len := by omega
      simp [h, h0]
    · simp [h]
  · simp [hlen]

/-- A call on an unset cache whose two fetches succeed: the result is decided by the loop. -/
theorem Languages_fetched {ω : Type} (c : languageCatalog ω) (w w1 w2 : ω)
    (codes names : Slice String) (hc : c.languages = Slice.nil)
    (hcodes : c.provider.Codes w = ((codes, none), w1))
    (hnames : c.provider.Names codes w1 = ((names, none), w2)) :
    Languages c w =
      { outcome :=
          if names.len < codes.len
            then Outcome.panicked (Panic.indexOutOfRange names.len names.len)
            else Outcome.returned
              (Slice.nil.extend (List.zipWith Language.mk codes.toList names.toList), none),
        catalog :=
          { c with languages :=
              Slice.nil.extend (List.zipWith Language.mk codes.toList names.toList) },
        world := w2,
        calls := [ProviderCall.Codes, ProviderCall.Names codes] } := by
  simp only [Languages, hc, Slice.isNil, if_true, hcodes, hnames, zipLoop_start]
  by_cases h : names.len < codes.len <;> simp [h]

/-- A call on a set cache returns the cache and touches nothing. -/
theorem Languages_cached {ω : Type} (c : languageCatalog ω) (w : ω)
    (hc : c.languages ≠ Slice.nil) :
    Languages c w =
      { outcome := Outcome.returned (c.languages, none), catalog := c, world := w, calls := [] } := by
  have h : c.languages.isNil = false := (Slice.isNil_eq_false _).2 hc
  simp [Languages, h]

/-- A call that returns a list and no error has left exactly that list in the cache. -/
theorem Languages_returned_cache {ω : Type} (c : languageCatalog ω) (w : ω)
    (value : Slice Language)
    (h : (Languages c w).outcome = Outcome.returned (value, none)) :
    (Languages c w).catalog.languages = value := by
  by_cases hc : c.languages = Slice.nil
  · rcases hcodes : c.provider.Codes w with ⟨⟨codes, _ | err⟩, w1⟩
    · rcases hnames : c.provider.Names codes w1 with ⟨⟨names, _ | err⟩, w2⟩
      · rw [Languages_fetched c w w1 w2 codes names hc hcodes hnames] at h ⊢
        by_cases hlt : names.len < codes.len
        · simp [hlt] at h
        · simpa [hlt] using h
      · simp [Languages, hc, Slice.isNil, hcodes, hnames] at h
    · simp [Languages, hc, Slice.isNil, hcodes] at h
  · rw [Languages_cached c w hc] at h ⊢
    simpa using h

/-- A call on an unset cache starts with a call to `Codes`. -/
theorem Languages_unset_calls_codes {ω : Type} (c : languageCatalog ω) (w : ω)
    (hc : c.languages = Slice.nil) :
    ∃ rest, (Languages c w).calls = ProviderCall.Codes :: rest := by
  rcases hcodes : c.provider.Codes w with ⟨⟨codes, _ | err⟩, w1⟩
  · rcases hnames : c.provider.Names codes w1 with ⟨⟨names, _ | err⟩, w2⟩
    · rw [Languages_fetched c w w1 w2 codes names hc hcodes hnames]
      exact ⟨_, rfl⟩
    · exact ⟨[ProviderCall.Names codes], by simp [Languages, hc, Slice.isNil, hcodes, hnames]⟩
  · exact ⟨[], by simp [Languages, hc, Slice.isNil, hcodes]⟩

theorem zipWith_take_left {α β γ : Type} (f : α → β → γ) (xs : List α) :
    ∀ ys : List β, List.zipWith f (xs.take ys.length) ys = List.zipWith f xs ys := by
  induction xs with
  | nil => intro ys; simp
  | cons x xs ih =>
    intro ys
    cases ys with
    | nil => simp
    | cons y ys => simp [ih ys]

theorem zipWith_take_right {α β γ : Type} (f : α → β → γ) (xs : List α) :
    ∀ ys : List β, List.zipWith f xs (ys.take xs.length) = List.zipWith f xs ys := by
  induction xs with
  | nil => intro ys; simp
  | cons x xs ih =>
    intro ys
    cases ys with
    | nil => simp
    | cons y ys => simp [ih ys]

/-- Extending the nil slice gives nil for an empty run and a non-nil slice otherwise. -/
theorem Slice.nil_extend {α : Type} (xs : List α) :
    (xs = [] → (Slice.nil : Slice α).extend xs = Slice.nil) ∧
    (xs ≠ [] → (Slice.nil : Slice α).extend xs = Slice.mk xs) := by
  cases xs with
  | nil => simp [Slice.extend]
  | cons x xs => simp [Slice.extend_cons_eq_mk, Slice.toList_nil]

/-- The cache is nil or non-empty after a call if it was so before, however the call ends. -/
theorem Languages_keeps_nil_or_nonempty {ω : Type} (c : languageCatalog ω) (w : ω)
    (h : c.languages = Slice.nil ∨ c.languages.toList ≠ []) :
    (Languages c w).catalog.languages = Slice.nil ∨
      (Languages c w).catalog.languages.toList ≠ [] := by
  by_cases hc : c.languages = Slice.nil
  · rcases hcodes : c.provider.Codes w with ⟨⟨codes, _ | err⟩, w1⟩
    · rcases hnames : c.provider.Names codes w1 with ⟨⟨names, _ | err⟩, w2⟩
      · rw [Languages_fetched c w w1 w2 codes names hc hcodes hnames]
        by_cases hz : List.zipWith Language.mk codes.toList names.toList = []
        · left; exact (Slice.nil_extend _).1 hz
        · right; simp only [(Slice.nil_extend _).2 hz, Slice.toList_mk]; exact hz
      · have hres : (Languages c w).catalog = c := by
          simp [Languages, hc, Slice.isNil, hcodes, hnames]
        rw [hres]; exact h
    · have hres : (Languages c w).catalog = c := by
        simp [Languages, hc, Slice.isNil, hcodes]
      rw [hres]; exact h
  · rw [Languages_cached c w hc]; exact h

/-- A call on an unset cache whose `Codes` gives no codes and whose `Names` succeeds. -/
theorem Languages_empty_fetch {ω : Type} (c : languageCatalog ω) (w w1 w2 : ω)
    (codes names : Slice String) (hc : c.languages = Slice.nil)
    (hcodes : c.provider.Codes w = ((codes, none), w1)) (hempty : codes.toList = [])
    (hnames : c.provider.Names codes w1 = ((names, none), w2)) :
    Languages c w =
      { outcome := Outcome.returned (Slice.nil, none), catalog := c, world := w2,
        calls := [ProviderCall.Codes, ProviderCall.Names codes] } := by
  rw [Languages_fetched c w w1 w2 codes names hc hcodes hnames]
  have hlen : codes.len = 0 := by simp [Slice.len, hempty]
  have hlt : ¬ names.len < codes.len := by omega
  simp only [hlt, if_false, hempty, List.zipWith_nil_left, Slice.extend]
  cases c
  simp_all

/-! ## The language catalog -/

/-- C1: on an unset cache, when `Codes` succeeds with `codes` and `Names(codes)` succeeds with
`names` of the same length, `Languages` returns no error and a list of exactly `len(codes)`
records, the i-th being the record of `codes[i]` and `names[i]`, in the order of `codes`. -/
theorem C1_languages_zips_codes_and_names {ω : Type} (c : languageCatalog ω) (w w1 w2 : ω)
    (codes names : Slice String) (hc : c.languages = Slice.nil)
    (hlen : codes.len = names.len)
    (hcodes : c.provider.Codes w = ((codes, none), w1))
    (hnames : c.provider.Names codes w1 = ((names, none), w2)) :
    ∃ languages : Slice Language,
      (Languages c w).outcome = Outcome.returned (languages, none) ∧
      languages.len = codes.len ∧
      languages.toList = List.zipWith Language.mk codes.toList names.toList ∧
      ∀ (i : Nat) (code name : String), codes.index? i = some code →
        names.index? i = some name →
        languages.index? i = some { Code := code, Name := name } := by
  refine ⟨Slice.nil.extend (List.zipWith Language.mk codes.toList names.toList), ?_, ?_, ?_, ?_⟩
  · rw [Languages_fetched c w w1 w2 codes names hc hcodes hnames]
    have h : ¬ names.len < codes.len := by omega
    simp [h]
  · have h : codes.toList.length = names.toList.length := hlen
    simp [Slice.len, Slice.toList_extend, Slice.toList_nil, h]
  · simp [Slice.toList_extend, Slice.toList_nil]
  · intro i code name hcode hname
    simp only [Slice.index?] at hcode hname ⊢
    simp [Slice.toList_extend, Slice.toList_nil, List.getElem?_zipWith, hcode, hname]

/-- C1 at the input of the specification: codes en, de and names English, German. -/
theorem C1_languages_zips_codes_and_names_witness :
    ∃ languages : Slice Language,
      (Languages (newLanguageCatalog
          (stubProvider (Slice.mk ["en", "de"], none) (Slice.mk ["English", "German"], none)))
        0).outcome = Outcome.returned (languages, none) ∧
      languages.toList =
        [{ Code := "en", Name := "English" }, { Code := "de", Name := "German" }] := by
  obtain ⟨languages, h1, _, h3, _⟩ :=
    C1_languages_zips_codes_and_names
      (newLanguageCatalog
        (stubProvider (Slice.mk ["en", "de"], none) (Slice.mk ["English", "German"], none)))
      0 1 2 (Slice.mk ["en", "de"]) (Slice.mk ["English", "German"]) rfl rfl rfl rfl
  exact ⟨languages, h1, by simpa [Slice.toList_mk] using h3⟩

/-- C2, as stated, fails: with a provider that answers both fetches with the empty list, a call
on a new catalog returns successfully (the nil list, no error), and the next call does not
return without calling the provider: it calls `Codes` and `Names` again. -/
theorem C2_repeat_after_empty_fetch_counterexample :
    (Languages (newLanguageCatalog (stubProvider (Slice.mk [], none) (Slice.mk [], none)))
        0).outcome = Outcome.returned (Slice.nil, none) ∧
    (Languages
        (Languages (newLanguageCatalog (stubProvider (Slice.mk [], none) (Slice.mk [], none)))
          0).catalog 2).calls = [ProviderCall.Codes, ProviderCall.Names (Slice.mk [])] ∧
    (Languages
        (Languages (newLanguageCatalog (stubProvider (Slice.mk [], none) (Slice.mk [], none)))
          0).catalog 2).world = 4 := by
  decide

/-- C2, amended: for every provider and every catalog state, if a call to `Languages` returns
a non-nil list and no error, then the next call, in whatever world, returns the identical list
with no error, makes no call to the provider, and leaves world and cache as they were. -/
theorem C2_repeat_call_returns_cache {ω : Type} (c : languageCatalog ω) (w w' : ω)
    (value : Slice Language)
    (h : (Languages c w).outcome = Outcome.returned (value, none))
    (hvalue : value ≠ Slice.nil) :
    (Languages (Languages c w).catalog w').outcome = Outcome.returned (value, none) ∧
    (Languages (Languages c w).catalog w').calls = [] ∧
    (Languages (Languages c w).catalog w').world = w' ∧
    (Languages (Languages c w).catalog w').catalog = (Languages c w).catalog := by
  have hcache := Languages_returned_cache c w value h
  have hne : (Languages c w).catalog.languages ≠ Slice.nil := by rw [hcache]; exact hvalue
  rw [Languages_cached _ w' hne]
  simp [hcache]

/-- C2, amended, at a concrete input: after the fetch of en, de the second call returns the
same two records and calls nothing. -/
theorem C2_repeat_call_returns_cache_witness :
    (Languages
        (Languages (newLanguageCatalog
          (stubProvider (Slice.mk ["en", "de"], none) (Slice.mk ["English", "German"], none)))
          0).catalog 2).outcome =
      Outcome.returned
        (Slice.mk [{ Code := "en", Name := "English" }, { Code := "de", Name := "German" }],
          none) ∧
    (Languages
        (Languages (newLanguageCatalog
          (stubProvider (Slice.mk ["en", "de"], none) (Slice.mk ["English", "German"], none)))
          0).catalog 2).calls = [] := by
  have h := C2_repeat_call_returns_cache
    (newLanguageCatalog
      (stubProvider (Slice.mk ["en", "de"], none) (Slice.mk ["English", "German"], none)))
    0 2 (Slice.mk [{ Code := "en", Name := "English" }, { Code := "de", Name := "German" }])
    (by decide) (by decide)
  exact ⟨h.1, h.2.1⟩

/-- C3: on an unset cache, if `Codes` fails then `Languages` returns the nil list and an
error, `Names` is not called (the only provider call is `Codes`), the cache is still unset,
and the next call to `Languages` calls `Codes` again. -/
theorem C3_codes_failure_leaves_cache_unset {ω : Type} (c : languageCatalog ω) (w w1 : ω)
    (codes : Slice String) (err : Err) (hc : c.languages = Slice.nil)
    (hcodes : c.provider.Codes w = ((codes, some err), w1)) :
    (Languages c w).outcome = Outcome.returned (Slice.nil, some (tracerrWrap err)) ∧
    (Languages c w).calls = [ProviderCall.Codes] ∧
    (Languages c w).catalog.languages = Slice.nil ∧
    ∀ w' : ω, ∃ rest,
      (Languages (Languages c w).catalog w').calls = ProviderCall.Codes :: rest := by
  have hres : Languages c w =
      { outcome := Outcome.returned (Slice.nil, some (tracerrWrap err)),
        catalog := c, world := w1, calls := [ProviderCall.Codes] } := by
    simp [Languages, hc, Slice.isNil, hcodes]
  rw [hres]
  exact ⟨rfl, rfl, hc, fun w' => Languages_unset_calls_codes c w' hc⟩

/-- C3 at a concrete input: a provider whose `Codes` always fails. -/
theorem C3_codes_failure_leaves_cache_unset_witness :
    (Languages (newLanguageCatalog
        (stubProvider (Slice.nil, some (Err.msg "codes")) (Slice.mk ["English"], none)))
      0).outcome = Outcome.returned (Slice.nil, some (Err.traced (Err.msg "codes"))) ∧
    (Languages (newLanguageCatalog
        (stubProvider (Slice.nil, some (Err.msg "codes")) (Slice.mk ["English"], none)))
      0).calls = [ProviderCall.Codes] := by
  have h := C3_codes_failure_leaves_cache_unset
    (newLanguageCatalog
      (stubProvider (Slice.nil, some (Err.msg "codes")) (Slice.mk ["English"], none)))
    0 1 Slice.nil (Err.msg "codes") rfl rfl
  exact ⟨h.1, h.2.1⟩

/-- C4: on an unset cache, if `Codes` succeeds and `Names(codes)` fails, then `Languages`
returns the nil list and an error, and the catalog after the call equals the catalog before
it: the cache is left unset. -/
theorem C4_names_failure_leaves_catalog_unchanged {ω : Type} (c : languageCatalog ω)
    (w w1 w2 : ω) (codes names : Slice String) (err : Err) (hc : c.languages = Slice.nil)
    (hcodes : c.provider.Codes w = ((codes, none), w1))
    (hnames : c.provider.Names codes w1 = ((names, some err), w2)) :
    (Languages c w).outcome = Outcome.returned (Slice.nil, some (tracerrWrap err)) ∧
    (Languages c w).catalog = c ∧
    (Languages c w).catalog.languages = Slice.nil := by
  have hres : Languages c w =
      { outcome := Outcome.returned (Slice.nil, some (tracerrWrap err)),
        catalog := c, world := w2,
        calls := [ProviderCall.Codes, ProviderCall.Names codes] } := by
    simp [Languages, hc, Slice.isNil, hcodes, hnames]
  rw [hres]
  exact ⟨rfl, rfl, hc⟩

/-- C4 at a concrete input: `Codes` gives en, de and `Names` fails. -/
theorem C4_names_failure_leaves_catalog_unchanged_witness :
    (Languages (newLanguageCatalog
        (stubProvider (Slice.mk ["en", "de"], none) (Slice.nil, some (Err.msg "names"))))
      0).outcome = Outcome.returned (Slice.nil, some (Err.traced (Err.msg "names"))) ∧
    (Languages (newLanguageCatalog
        (stubProvider (Slice.mk ["en", "de"], none) (Slice.nil, some (Err.msg "names"))))
      0).catalog.languages = Slice.nil := by
  have h := C4_names_failure_leaves_catalog_unchanged
    (newLanguageCatalog
      (stubProvider (Slice.mk ["en", "de"], none) (Slice.nil, some (Err.msg "names"))))
    0 1 2 (Slice.mk ["en", "de"]) Slice.nil (Err.msg "names") rfl rfl rfl
  exact ⟨h.1, h.2.2⟩

/-- C5: on an unset cache, for every list `codes` that `Codes` returns successfully,
`Languages` calls `Names` exactly once, after `Codes`, with `codes` itself as the argument,
in the world that `Codes` left. -/
theorem C5_names_called_once_with_codes {ω : Type} (c : languageCatalog ω) (w w1 : ω)
    (codes : Slice String) (hc : c.languages = Slice.nil)
    (hcodes : c.provider.Codes w = ((codes, none), w1)) :
    (Languages c w).calls = [ProviderCall.Codes, ProviderCall.Names codes] ∧
    (Languages c w).world = (c.provider.Names codes w1).2 := by
  rcases hnames : c.provider.Names codes w1 with ⟨⟨names, _ | err⟩, w2⟩
  · rw [Languages_fetched c w w1 w2 codes names hc hcodes hnames]
    exact ⟨rfl, rfl⟩
  · simp [Languages, hc, Slice.isNil, hcodes, hnames]

/-- C5 at a concrete input: `Codes` gives en, de. -/
theorem C5_names_called_once_with_codes_witness :
    (Languages (newLanguageCatalog
        (stubProvider (Slice.mk ["en", "de"], none) (Slice.mk ["English", "German"], none)))
      0).calls = [ProviderCall.Codes, ProviderCall.Names (Slice.mk ["en", "de"])] :=
  (C5_names_called_once_with_codes
    (newLanguageCatalog
      (stubProvider (Slice.mk ["en", "de"], none) (Slice.mk ["English", "German"], none)))
    0 1 (Slice.mk ["en", "de"]) rfl rfl).1

/-- C9: on an unset cache with both fetches successful, `codes` of length n and `names` of
length k. If 0 < k < n the loop faults on `names[k]` after appending the first k records, the
call yields no result, the cache is left non-nil with those k records, and a later call
returns them with no error and without calling the provider. If k = 0 < n the fault occurs
with the cache still unset. If k >= n there is no fault and only the first n names are used. -/
theorem C9_short_names_fault_after_partial_append {ω : Type} (c : languageCatalog ω)
    (w w1 w2 : ω) (codes names : Slice String) (hc : c.languages = Slice.nil)
    (hcodes : c.provider.Codes w = ((codes, none), w1))
    (hnames : c.provider.Names codes w1 = ((names, none), w2)) :
    (0 < names.len → names.len < codes.len →
      (Languages c w).outcome =
        Outcome.panicked (Panic.indexOutOfRange names.len names.len) ∧
      (Languages c w).catalog.languages =
        Slice.mk (List.zipWith Language.mk (codes.toList.take names.len) names.toList) ∧
      (Languages c w).catalog.languages.len = names.len ∧
      ∀ w' : ω,
        (Languages (Languages c w).catalog w').outcome =
          Outcome.returned
            (Slice.mk (List.zipWith Language.mk (codes.toList.take names.len) names.toList),
              none) ∧
        (Languages (Languages c w).catalog w').calls = []) ∧
    (names.len = 0 → 0 < codes.len →
      (Languages c w).outcome = Outcome.panicked (Panic.indexOutOfRange 0 0) ∧
      (Languages c w).catalog.languages = Slice.nil) ∧
    (codes.len ≤ names.len →
      ∃ languages : Slice Language,
        (Languages c w).outcome = Outcome.returned (languages, none) ∧
        languages.toList =
          List.zipWith Language.mk codes.toList (names.toList.take codes.len)) := by
  have hres := Languages_fetched c w w1 w2 codes names hc hcodes hnames
  have hclen : codes.len = codes.toList.length := rfl
  have hnlen : names.len = names.toList.length := rfl
  refine ⟨?_, ?_, ?_⟩
  · intro hpos hlt
    have htake : List.zipWith Language.mk codes.toList names.toList =
        List.zipWith Language.mk (codes.toList.take names.len) names.toList :=
      (zipWith_take_left Language.mk codes.toList names.toList).symm
    have hne : List.zipWith Language.mk (codes.toList.take names.len) names.toList ≠ [] := by
      intro hnil
      have hl := congrArg List.length hnil
      simp only [List.length_zipWith, List.length_take, List.length_nil] at hl
      omega
    have hcache : (Languages c w).catalog.languages =
        Slice.mk (List.zipWith Language.mk (codes.toList.take names.len) names.toList) := by
      rw [hres, htake]
      exact (Slice.nil_extend _).2 hne
    have hset : (Languages c w).catalog.languages ≠ Slice.nil := by
      rw [hcache]; simp
    refine ⟨?_, hcache, ?_, ?_⟩
    · rw [hres]; simp [hlt]
    · rw [hcache]
      simp only [Slice.len, Slice.toList_mk, List.length_zipWith, List.length_take]
      omega
    · intro w'
      rw [Languages_cached _ w' hset]
      simp [hcache]
  · intro hzero hpos
    have hlt : names.len < codes.len := by omega
    have hnil : names.toList = [] := List.length_eq_zero.1 (by omega)
    have hne : codes.len ≠ 0 := by omega
    rw [hres]
    simp [hzero, hnil, hne, Nat.pos_iff_ne_zero, Slice.extend]
  · intro hle
    refine ⟨Slice.nil.extend (List.zipWith Language.mk codes.toList names.toList), ?_, ?_⟩
    · have hlt : ¬ names.len < codes.len := by omega
      rw [hres]; simp [hlt]
    · rw [Slice.toList_extend, Slice.toList_nil, List.nil_append, hclen,
        zipWith_take_right]

/-- C9 at a concrete input: codes en, de, fr and the single name English. The call faults at
index 1 and leaves the one record of en in the cache. -/
theorem C9_short_names_fault_after_partial_append_witness :
    (Languages (newLanguageCatalog
        (stubProvider (Slice.mk ["en", "de", "fr"], none) (Slice.mk ["English"], none)))
      0).outcome = Outcome.panicked (Panic.indexOutOfRange 1 1) ∧
    (Languages (newLanguageCatalog
        (stubProvider (Slice.mk ["en", "de", "fr"], none) (Slice.mk ["English"], none)))
      0).catalog.languages = Slice.mk [{ Code := "en", Name := "English" }] := by
  have h := (C9_short_names_fault_after_partial_append
    (newLanguageCatalog
      (stubProvider (Slice.mk ["en", "de", "fr"], none) (Slice.mk ["English"], none)))
    0 1 2 (Slice.mk ["en", "de", "fr"]) (Slice.mk ["English"]) rfl rfl rfl).1
      (by decide) (by decide)
  exact ⟨h.1, h.2.1⟩

/-- C10: in every state reachable from `newLanguageCatalog` by calls to `Languages` that
return normally, the cache is nil or a non-empty list, so the nil test agrees with an
emptiness test. And on an unset cache, when `Codes` succeeds with the empty list and `Names`
succeeds, `Languages` returns the nil list with no error and leaves the catalog as it was,
cache unset; a later call calls `Codes` again, and over any run of later calls in which the
provider answers the same way, every call calls `Codes` and `Names` again. -/
theorem C10_cache_nil_or_nonempty {ω : Type} (provider : LanguageProvider ω) :
    (∀ c : languageCatalog ω, Reachable provider c →
      (c.languages = Slice.nil ∨ c.languages.toList ≠ []) ∧
      (c.languages.isNil = true ↔ c.languages.toList = [])) ∧
    (∀ (c : languageCatalog ω) (w w1 w2 : ω) (codes names : Slice String),
      c.languages = Slice.nil →
      c.provider.Codes w = ((codes, none), w1) → codes.toList = [] →
      c.provider.Names codes w1 = ((names, none), w2) →
      (Languages c w).outcome = Outcome.returned (Slice.nil, none) ∧
      (Languages c w).catalog = c ∧
      (Languages c w).catalog.languages = Slice.nil ∧
      (∀ w' : ω, ∃ rest,
        (Languages (Languages c w).catalog w').calls = ProviderCall.Codes :: rest)) ∧
    (∀ (c : languageCatalog ω) (ws : List ω), c.languages = Slice.nil →
      (∀ w ∈ ws, ∃ (w1 w2 : ω) (codes names : Slice String),
        c.provider.Codes w = ((codes, none), w1) ∧ codes.toList = [] ∧
        c.provider.Names codes w1 = ((names, none), w2)) →
      ∀ r ∈ callEach c ws,
        r.outcome = Outcome.returned (Slice.nil, none) ∧
        r.catalog.languages = Slice.nil ∧
        ∃ codes, r.calls = [ProviderCall.Codes, ProviderCall.Names codes]) := by
  refine ⟨?_, ?_, ?_⟩
  · intro c hreach
    have hinv : c.languages = Slice.nil ∨ c.languages.toList ≠ [] := by
      induction hreach with
      | init => exact Or.inl rfl
      | call c w value _ _ ih => exact Languages_keeps_nil_or_nonempty c w ih
    refine ⟨hinv, ?_⟩
    rw [Slice.isNil_eq_true]
    constructor
    · intro h; rw [h]; rfl
    · intro h
      rcases hinv with h1 | h1
      · exact h1
      · exact absurd h h1
  · intro c w w1 w2 codes names hc hcodes hempty hnames
    rw [Languages_empty_fetch c w w1 w2 codes names hc hcodes hempty hnames]
    exact ⟨rfl, rfl, hc, fun w' => Languages_unset_calls_codes c w' hc⟩
  · intro c ws hc
    induction ws with
    | nil => intro _ r hr; simp [callEach] at hr
    | cons w ws ih =>
      intro hws r hr
      obtain ⟨w1, w2, codes, names, hcodes, hempty, hnames⟩ := hws w (List.mem_cons_self w ws)
      have hres := Languages_empty_fetch c w w1 w2 codes names hc hcodes hempty hnames
      simp only [callEach, List.mem_cons] at hr
      rcases hr with hr | hr
      · rw [hr, hres]
        exact ⟨rfl, hc, codes, rfl⟩
      · have hcat : (Languages c w).catalog = c := by rw [hres]
        rw [hcat] at hr
        exact ih (fun w' hw' => hws w' (List.mem_cons_of_mem w hw')) r hr

/-- C10 at a concrete input: a provider that answers both fetches with the empty list. The new
catalog is reachable, the call returns the nil list with no error, and the cache stays unset. -/
theorem C10_cache_nil_or_nonempty_witness :
    ((newLanguageCatalog (stubProvider (Slice.mk [], none) (Slice.mk [], none))).languages
        = Slice.nil ∨
      (newLanguageCatalog
        (stubProvider (Slice.mk [], none) (Slice.mk [], none))).languages.toList ≠ []) ∧
    (Languages (newLanguageCatalog (stubProvider (Slice.mk [], none) (Slice.mk [], none)))
        0).outcome = Outcome.returned (Slice.nil, none) ∧
    (Languages (newLanguageCatalog (stubProvider (Slice.mk [], none) (Slice.mk [], none)))
        0).catalog.languages = Slice.nil := by
  have h := C10_cache_nil_or_nonempty (stubProvider (Slice.mk [], none) (Slice.mk [], none))
  have h2 := h.2.1 (newLanguageCatalog (stubProvider (Slice.mk [], none) (Slice.mk [], none)))
    0 1 2 (Slice.mk []) (Slice.mk []) rfl rfl rfl rfl
  exact ⟨(h.1 _ Reachable.init).1, h2.1, h2.2.2.1⟩

/-! ## The HTTP client -/

/-- A request that `http.NewRequest` returns has an empty header. -/
theorem httpNewRequest_header (net : NetHttp) (method uri : String) (body : Option Bytes)
    (request0 : Request) (h : httpNewRequest net method uri body = Except.ok request0) :
    request0.Header = [] := by
  by_cases hv : net.validMethod (if method = "" then "GET" else method) = true
  · cases hp : net.parseURL uri with
    | error err => simp [httpNewRequest, hv, hp] at h
    | ok url =>
      simp only [httpNewRequest, hv, hp, if_true, Except.ok.injEq] at h
      rw [← h]
  · simp [httpNewRequest, hv] at h

/-- C6: in `SendRequest`, when the request cannot be built nothing is called. Otherwise the
authenticator is invoked first, on the request whose only header is Content-Type with exactly
the `contentType` argument as its value. When `Authenticate` returns an error, `SendRequest`
returns a nil response with the wrapped error and the transport is never invoked. When it
succeeds, the transport is invoked next, once, on the authenticated request, and its answer
decides the result. -/
theorem C6_authenticate_before_send {ω : Type} (h : httpClient ω) (net : NetHttp)
    (method uri : String) (body : Option Bytes) (contentType : String) (w : ω) :
    (∀ err : Err, httpNewRequest net method uri body = Except.error err →
      (SendRequest h net method uri body contentType w).ret = (none, some (tracerrWrap err)) ∧
      (SendRequest h net method uri body contentType w).events = []) ∧
    (∀ request0 request : Request, httpNewRequest net method uri body = Except.ok request0 →
      request = { request0 with Header := [("Content-Type", [contentType])] } →
      request.Header.Values "Content-Type" = [contentType] ∧
      (∃ rest, (SendRequest h net method uri body contentType w).events =
        HttpEvent.Authenticate request :: rest) ∧
      (∀ (authenticated : Request) (err : Err) (w1 : ω),
        h.authenticator request w = ((authenticated, some err), w1) →
        (SendRequest h net method uri body contentType w).ret =
          (none, some (tracerrWrap err)) ∧
        (SendRequest h net method uri body contentType w).events =
          [HttpEvent.Authenticate request] ∧
        (SendRequest h net method uri body contentType w).world = w1 ∧
        ∀ sent : Request,
          HttpEvent.Do sent ∉ (SendRequest h net method uri body contentType w).events) ∧
      (∀ (authenticated : Request) (w1 : ω),
        h.authenticator request w = ((authenticated, none), w1) →
        (SendRequest h net method uri body contentType w).events =
          [HttpEvent.Authenticate request, HttpEvent.Do authenticated] ∧
        (SendRequest h net method uri body contentType w).world =
          (h.client authenticated w1).2 ∧
        (∀ (response : Option Response) (err : Err),
          (h.client authenticated w1).1 = (response, some err) →
          (SendRequest h net method uri body contentType w).ret =
            (none, some (tracerrWrap err))) ∧
        (∀ response : Option Response,
          (h.client authenticated w1).1 = (response, none) →
          (SendRequest h net method uri body contentType w).ret = (response, none)))) := by
  constructor
  · intro err hnew
    simp [SendRequest, hnew]
  · intro request0 request hnew hreq
    have hhead := httpNewRequest_header net method uri body request0 hnew
    have hadd : ({ request0 with Header := request0.Header.Add "Content-Type" contentType }
        : Request) = request := by
      rw [hreq, hhead]; rfl
    refine ⟨?_, ?_, ?_, ?_⟩
    · rw [hreq]; simp [Header.Values]
    · rcases hauth : h.authenticator request w with ⟨⟨authenticated, _ | aerr⟩, w1⟩
      · rcases hdo : h.client authenticated w1 with ⟨⟨response, _ | derr⟩, w2⟩ <;>
          simp [SendRequest, hnew, hadd, hauth, hdo]
      · simp [SendRequest, hnew, hadd, hauth]
    · intro authenticated err w1 hauth
      simp [SendRequest, hnew, hadd, hauth]
    · intro authenticated w1 hauth
      rcases hdo : h.client authenticated w1 with ⟨⟨response, _ | derr⟩, w2⟩ <;>
        simp [SendRequest, hnew, hadd, hauth, hdo]

/-- C6 at two concrete inputs, both with the empty method, which stands for GET. With an
authenticator that fails, nothing reaches the transport. With one that succeeds, the
transport is called after it, on the request that now carries the credential. -/
theorem C6_authenticate_before_send_witness :
    ((SendRequest (stubHttpClient (some (Err.msg "auth")) (some { Body := ([], none) }, none))
        stubNetHttp "" "https://api.test/codes" none "text/plain" 0).ret =
      (none, some (Err.traced (Err.msg "auth"))) ∧
     (SendRequest (stubHttpClient (some (Err.msg "auth")) (some { Body := ([], none) }, none))
        stubNetHttp "" "https://api.test/codes" none "text/plain" 0).events =
      [HttpEvent.Authenticate { Method := "GET", URL := "https://api.test/codes", Body := none,
                                Header := [("Content-Type", ["text/plain"])] }]) ∧
    ((SendRequest (stubHttpClient none (some { Body := ([60, 62], none) }, none))
        stubNetHttp "" "https://api.test/codes" none "text/plain" 0).events =
      [HttpEvent.Authenticate { Method := "GET", URL := "https://api.test/codes", Body := none,
                                Header := [("Content-Type", ["text/plain"])] },
       HttpEvent.Do { Method := "GET", URL := "https://api.test/codes", Body := none,
                      Header := [("Content-Type", ["text/plain"]),
                                 ("Authorization", ["Bearer t"])] }] ∧
     (SendRequest (stubHttpClient none (some { Body := ([60, 62], none) }, none))
        stubNetHttp "" "https://api.test/codes" none "text/plain" 0).ret =
      (some { Body := ([60, 62], none) }, none)) := by
  have hfail := ((C6_authenticate_before_send
    (stubHttpClient (some (Err.msg "auth")) (some { Body := ([], none) }, none))
    stubNetHttp "" "https://api.test/codes" none "text/plain" 0).2
      (Request.mk "GET" "https://api.test/codes" none [])
      (Request.mk "GET" "https://api.test/codes" none [("Content-Type", ["text/plain"])])
      rfl rfl).2.2.1
        (Request.mk "GET" "https://api.test/codes" none
          [("Content-Type", ["text/plain"]), ("Authorization", ["Bearer t"])])
        (Err.msg "auth") 1 rfl
  have hok := ((C6_authenticate_before_send
    (stubHttpClient none (some { Body := ([60, 62], none) }, none))
    stubNetHttp "" "https://api.test/codes" none "text/plain" 0).2
      (Request.mk "GET" "https://api.test/codes" none [])
      (Request.mk "GET" "https://api.test/codes" none [("Content-Type", ["text/plain"])])
      rfl rfl).2.2.2
        (Request.mk "GET" "https://api.test/codes" none
          [("Content-Type", ["text/plain"]), ("Authorization", ["Bearer t"])])
        1 rfl
  exact ⟨⟨hfail.1, hfail.2.1⟩, ⟨hok.1, hok.2.2.2 (some { Body := ([60, 62], none) }) rfl⟩⟩

/-! ## The language provider -/

/-- C7, as stated, fails: with a codec whose `Marshal` fails, `Names` still sends one request
(with the payload `Marshal` returned) and, the later steps succeeding, returns the decoded
names with no error. -/
theorem C7_marshal_error_discarded_counterexample :
    (stubCodec ([], some (Err.msg "marshal")) (Slice.mk ["English"], none)).Marshal
        (Slice.mk ["en"]) = ([], some (Err.msg "marshal")) ∧
    (Names (stubLanguageProvider (some { Body := ([60, 62], none) }, none))
        (stubCodec ([], some (Err.msg "marshal")) (Slice.mk ["English"], none))
        (Slice.mk ["en"]) 0).outcome = Outcome.returned (Slice.mk ["English"], none) ∧
    (Names (stubLanguageProvider (some { Body := ([60, 62], none) }, none))
        (stubCodec ([], some (Err.msg "marshal")) (Slice.mk ["English"], none))
        (Slice.mk ["en"]) 0).requests =
      [{ method := "POST", uri := "https://api.test/names?locale=en", body := some [],
         contentType := "text/xml" }] := by
  decide

/-- C7, amended: in `Names` and in `Codes`, a failure of `SendRequest`, of reading the
response body, or of the XML unmarshal of the body is returned to the caller as an error with
the nil list as result. The error of the XML marshal in `Names` is discarded: whatever
`Marshal` answers, `Names` sends its one request, with the payload `Marshal` returned. -/
theorem C7_fetch_failures_are_returned {ω X : Type} (p : languageProvider ω) (xml : XmlCodec X)
    (codes : Slice String) (w : ω) (sentNames sentCodes : (Option Response × Option Err) × ω)
    (hsentNames : p.httpClient "POST" (p.router.LanguageNamesURL ++ "?locale=en")
      (some (xml.Marshal (xml.newXMLArrayOfStrings codes)).1) "text/xml" w = sentNames)
    (hsentCodes : p.httpClient "GET" p.router.LanguageCodesURL none "text/plain" w = sentCodes) :
    ((∀ (response : Option Response) (err : Err), sentNames.1 = (response, some err) →
        (Names p xml codes w).outcome = Outcome.returned (Slice.nil, some (tracerrWrap err))) ∧
     (∀ (response : Response) (data : Bytes) (err : Err),
        sentNames.1 = (some response, none) → response.Body = (data, some err) →
        (Names p xml codes w).outcome = Outcome.returned (Slice.nil, some (tracerrWrap err))) ∧
     (∀ (response : Response) (data : Bytes) (result : X) (err : Err),
        sentNames.1 = (some response, none) → response.Body = (data, none) →
        xml.Unmarshal data xml.zero = (result, some err) →
        (Names p xml codes w).outcome = Outcome.returned (Slice.nil, some (tracerrWrap err))) ∧
     (Names p xml codes w).requests =
        [{ method := "POST", uri := p.router.LanguageNamesURL ++ "?locale=en",
           body := some (xml.Marshal (xml.newXMLArrayOfStrings codes)).1,
           contentType := "text/xml" }] ∧
     (Names p xml codes w).world = sentNames.2) ∧
    ((∀ (response : Option Response) (err : Err), sentCodes.1 = (response, some err) →
        (Codes p xml w).outcome = Outcome.returned (Slice.nil, some (tracerrWrap err))) ∧
     (∀ (response : Response) (data : Bytes) (err : Err),
        sentCodes.1 = (some response, none) → response.Body = (data, some err) →
        (Codes p xml w).outcome = Outcome.returned (Slice.nil, some (tracerrWrap err))) ∧
     (∀ (response : Response) (data : Bytes) (result : X) (err : Err),
        sentCodes.1 = (some response, none) → response.Body = (data, none) →
        xml.Unmarshal data xml.zero = (result, some err) →
        (Codes p xml w).outcome = Outcome.returned (Slice.nil, some (tracerrWrap err)))) := by
  constructor
  · rcases sentNames with ⟨⟨_ | response, _ | serr⟩, w1⟩
    · simp [Names, hsentNames]
    · simp [Names, hsentNames]
    · rcases hbody : response.Body with ⟨data, _ | rerr⟩
      · rcases hun : xml.Unmarshal data xml.zero with ⟨result, _ | uerr⟩
        · simp [Names, hsentNames, hbody, hun]
          constructor
          · intro r d e h1 h2; subst h1; rw [hbody] at h2; simp at h2
          · intro r d res e h1 h2 h3
            subst h1
            rw [hbody] at h2
            simp only [Prod.mk.injEq, and_true] at h2
            subst h2
            rw [hun] at h3
            simp at h3
        · refine ⟨?_, ?_, ?_, ?_, ?_⟩
          · intro r e h; simp at h
          · intro r d e h1 h2
            simp only [Prod.mk.injEq, Option.some.injEq, and_true] at h1
            subst h1; rw [hbody] at h2; simp at h2
          · intro r d res e h1 h2 h3
            simp only [Prod.mk.injEq, Option.some.injEq, and_true] at h1
            subst h1
            rw [hbody] at h2
            simp only [Prod.mk.injEq, and_true] at h2
            subst h2
            rw [hun] at h3
            simp only [Prod.mk.injEq, Option.some.injEq] at h3
            simp [Names, hsentNames, hbody, hun, h3.2]
          · simp [Names, hsentNames, hbody, hun]
          · simp [Names, hsentNames, hbody, hun]
      · refine ⟨?_, ?_, ?_, ?_, ?_⟩
        · intro r e h; simp at h
        · intro r d e h1 h2
          simp only [Prod.mk.injEq, Option.some.injEq, and_true] at h1
          subst h1
          rw [hbody] at h2
          simp only [Prod.mk.injEq, Option.some.injEq] at h2
          simp [Names, hsentNames, hbody, h2.2]
        · intro r d res e h1 h2 h3
          simp only [Prod.mk.injEq, Option.some.injEq, and_true] at h1
          subst h1; rw [hbody] at h2; simp at h2
        · simp [Names, hsentNames, hbody]
        · simp [Names, hsentNames, hbody]
    · simp [Names, hsentNames]
  · rcases sentCodes with ⟨⟨_ | response, _ | serr⟩, w1⟩
    · simp [Codes, hsentCodes]
    · simp [Codes, hsentCodes]
    · rcases hbody : response.Body with ⟨data, _ | rerr⟩
      · rcases hun : xml.Unmarshal data xml.zero with ⟨result, _ | uerr⟩
        · simp [Codes, hsentCodes, hbody, hun]
          constructor
          · intro r d e h1 h2; subst h1; rw [hbody] at h2; simp at h2
          · intro r d res e h1 h2 h3
            subst h1
            rw [hbody] at h2
            simp only [Prod.mk.injEq, and_true] at h2
            subst h2
            rw [hun] at h3
            simp at h3
        · refine ⟨?_, ?_, ?_⟩
          · intro r e h; simp at h
          · intro r d e h1 h2
            simp only [Prod.mk.injEq, Option.some.injEq, and_true] at h1
            subst h1; rw [hbody] at h2; simp at h2
          · intro r d res e h1 h2 h3
            simp only [Prod.mk.injEq, Option.some.injEq, and_true] at h1
            subst h1
            rw [hbody] at h2
            simp only [Prod.mk.injEq, and_true] at h2
            subst h2
            rw [hun] at h3
            simp only [Prod.mk.injEq, Option.some.injEq] at h3
            simp [Codes, hsentCodes, hbody, hun, h3.2]
      · refine ⟨?_, ?_, ?_⟩
        · intro r e h; simp at h
        · intro r d e h1 h2
          simp only [Prod.mk.injEq, Option.some.injEq, and_true] at h1
          subst h1
          rw [hbody] at h2
          simp only [Prod.mk.injEq, Option.some.injEq] at h2
          simp [Codes, hsentCodes, hbody, h2.2]
        · intro r d res e h1 h2 h3
          simp only [Prod.mk.injEq, Option.some.injEq, and_true] at h1
          subst h1; rw [hbody] at h2; simp at h2
    · simp [Codes, hsentCodes]

/-- C7, amended, at a concrete input: `SendRequest` fails, and both `Names` and `Codes` return
the nil list with the traced error. -/
theorem C7_fetch_failures_are_returned_witness :
    (Names (stubLanguageProvider (none, some (Err.msg "send")))
        (stubCodec ([60, 62], none) (Slice.mk ["English"], none)) (Slice.mk ["en"]) 0).outcome =
      Outcome.returned (Slice.nil, some (Err.traced (Err.msg "send"))) ∧
    (Codes (stubLanguageProvider (none, some (Err.msg "send")))
        (stubCodec ([60, 62], none) (Slice.mk ["English"], none)) 0).outcome =
      Outcome.returned (Slice.nil, some (Err.traced (Err.msg "send"))) := by
  have h := C7_fetch_failures_are_returned
    (stubLanguageProvider (none, some (Err.msg "send")))
    (stubCodec ([60, 62], none) (Slice.mk ["English"], none)) (Slice.mk ["en"]) 0
    ((none, some (Err.msg "send")), 1) ((none, some (Err.msg "send")), 1) rfl rfl
  exact ⟨h.1.1 none (Err.msg "send") rfl, h.2.1 none (Err.msg "send") rfl⟩

/-- C8, as stated, fails for a list whose XML marshal fails: with a codec whose `Marshal`
answers with an error for en, there is no XML encoding of the array, so the one request that
`Names` still sends does not carry it; its body is the empty payload that came with the
error. -/
theorem C8_body_without_encoding_counterexample :
    (Names (stubLanguageProvider (some { Body := ([60, 62], none) }, none))
        (stubCodec ([], some (Err.msg "marshal")) (Slice.mk ["English"], none))
        (Slice.mk ["en"]) 0).requests =
      [{ method := "POST", uri := "https://api.test/names?locale=en", body := some [],
         contentType := "text/xml" }] ∧
    ¬ ∃ payload : Bytes,
      (stubCodec ([], some (Err.msg "marshal")) (Slice.mk ["English"], none)).Marshal
          ((stubCodec ([], some (Err.msg "marshal"))
            (Slice.mk ["English"], none)).newXMLArrayOfStrings (Slice.mk ["en"])) =
        (payload, none) ∧
      (Names (stubLanguageProvider (some { Body := ([60, 62], none) }, none))
          (stubCodec ([], some (Err.msg "marshal")) (Slice.mk ["English"], none))
          (Slice.mk ["en"]) 0).requests =
        [{ method := "POST", uri := "https://api.test/names?locale=en", body := some payload,
           contentType := "text/xml" }] := by
  refine ⟨by decide, ?_⟩
  rintro ⟨payload, hmarshal, _⟩
  simp [stubCodec] at hmarshal

/-- C8, amended: for every list `codes` whose XML marshal succeeds with `payload`,
`Names(codes)` issues exactly one call to `SendRequest`, with method POST, the URI
`router.LanguageNamesURL()` followed by `?locale=en`, content type text/xml, and `payload`, the
XML encoding of `newXMLArrayOfStrings(codes)`, as body; the world it leaves is the one that
call left; and when the call succeeds, the body is read and it decodes, `Names` returns
exactly the decoded strings and no error. -/
theorem C8_names_request_and_result {ω X : Type} (p : languageProvider ω) (xml : XmlCodec X)
    (codes : Slice String) (w : ω) (payload : Bytes)
    (hmarshal : xml.Marshal (xml.newXMLArrayOfStrings codes) = (payload, none)) :
    (Names p xml codes w).requests =
      [{ method := "POST", uri := p.router.LanguageNamesURL ++ "?locale=en",
         body := some payload, contentType := "text/xml" }] ∧
    (Names p xml codes w).world =
      (p.httpClient "POST" (p.router.LanguageNamesURL ++ "?locale=en")
        (some payload) "text/xml" w).2 ∧
    ∀ (response : Response) (w1 : ω) (data : Bytes) (result : X),
      p.httpClient "POST" (p.router.LanguageNamesURL ++ "?locale=en")
        (some payload) "text/xml" w = ((some response, none), w1) →
      response.Body = (data, none) →
      xml.Unmarshal data xml.zero = (result, none) →
      (Names p xml codes w).outcome = Outcome.returned (xml.Strings result, none) := by
  refine ⟨?_, ?_, ?_⟩
  · simp only [Names, hmarshal]
    split
    · rfl
    · rfl
    · split
      · rfl
      · split <;> rfl
  · simp only [Names, hmarshal]
    split
    · next h => rw [h]
    · next h => rw [h]
    · next h =>
      rw [h]
      split
      · rfl
      · split <;> rfl
  · intro response w1 data result hsent hbody hun
    simp [Names, hmarshal, hsent, hbody, hun]

/-- C8, amended, at a concrete input: codes en, de, whose marshal succeeds, and a response
whose body decodes to English, German. -/
theorem C8_names_request_and_result_witness :
    (Names (stubLanguageProvider (some { Body := ([60, 62], none) }, none))
        (stubCodec ([60, 47, 62], none) (Slice.mk ["English", "German"], none))
        (Slice.mk ["en", "de"]) 0).requests =
      [{ method := "POST", uri := "https://api.test/names?locale=en",
         body := some [60, 47, 62], contentType := "text/xml" }] ∧
    (Names (stubLanguageProvider (some { Body := ([60, 62], none) }, none))
        (stubCodec ([60, 47, 62], none) (Slice.mk ["English", "German"], none))
        (Slice.mk ["en", "de"]) 0).outcome =
      Outcome.returned (Slice.mk ["English", "German"], none) := by
  have h := C8_names_request_and_result
    (stubLanguageProvider (some { Body := ([60, 62], none) }, none))
    (stubCodec ([60, 47, 62], none) (Slice.mk ["English", "German"], none))
    (Slice.mk ["en", "de"]) 0 [60, 47, 62] rfl
  exact ⟨h.1, h.2.2 { Body := ([60, 62], none) } 1 [60, 62]
    (Slice.mk ["English", "German"]) rfl rfl rfl⟩

end Microsoft
